import Mathlib

/-!
Verification of the Connected Devices Server (Go) against its specification.

The Go code is shallowly embedded: bytes are `Nat` values (< 256 where the
Go type is `byte`/`uint8`), byte buffers are `List Nat`, `uint16` values are
`Nat` taken modulo 2^16 where the Go code can wrap, `int8` values are `Int`
in [-128, 127], Go maps are association lists, and `time.Now()` becomes an
explicit `now : Nat` argument.
-/

namespace Messaging

/-! ## Binary frame protocol (messaging package) -/

def MSG_GENERIC : Nat := 0x00
def MSG_CURRENT_WEATHER : Nat := 0x01
def MSG_FORECAST_WEATHER : Nat := 0x02
def MSG_DEVICE_CONFIG : Nat := 0x03
def MSG_VERSION : Nat := 0x10

def MAX_PAYLOAD_SIZE : Nat := 255

/-- The three decode failures of `DecodeMessage`. -/
inductive DecodeError where
  | tooShort
  | lengthMismatch
  | payloadTooLarge
deriving DecidableEq, Repr

/-- `EncodeGeneric` builds `[type][length][payload]` with type `0x00`;
the length byte is the Go `uint8(len(payload))` cast, hence `% 256`. -/
def EncodeGeneric (payload : List Nat) : List Nat :=
  MSG_GENERIC :: (payload.length % 256) :: payload

/-- `EncodeCurrentWeather` builds a 3-byte message; the payload byte is the
Go `uint8(temp + 50)` where `temp : int8`, i.e. `(temp + 50) mod 256`. -/
def EncodeCurrentWeather (temp : Int) : List Nat :=
  [MSG_CURRENT_WEATHER, 1, ((temp + 50) % 256).toNat]

/-- `EncodeVersion` builds a 3-byte message `[0x10][1][version]`. -/
def EncodeVersion (version : Nat) : List Nat :=
  [MSG_VERSION, 1, version % 256]

structure ForecastDay where
  HighTemp : Nat
  Precip : Nat
  Moon : Nat
deriving DecidableEq, Repr

/-- The per-day body of a forecast message: `[highTemp][precip][moon]` each. -/
def forecastBody : List ForecastDay → List Nat
  | [] => []
  | d :: rest => d.HighTemp :: d.Precip :: d.Moon :: forecastBody rest

/-- `EncodeForecast` builds `[type][len][numDays][day1][day2]...`;
the two length-like bytes go through Go `uint8` casts. -/
def EncodeForecast (days : List ForecastDay) : List Nat :=
  let payloadLen := 1 + days.length * 3
  MSG_FORECAST_WEATHER :: (payloadLen % 256) :: (days.length % 256) ::
    forecastBody days

/-- The string-section body of a device-config message:
`[len1][str1]...[lenN][strN]`. -/
def configBody : List (List Nat) → List Nat
  | [] => []
  | s :: rest => s.length :: (s ++ configBody rest)

/-- `EncodeDeviceConfig` builds `[type][length][numStrings][len1][str1]...`,
failing when the string count, any string length, or the payload length
exceeds 255. -/
def EncodeDeviceConfig (strs : List (List Nat)) : Option (List Nat) :=
  if strs.length > 255 then none
  else if strs.any (fun s => s.length > 255) then none
  else
    let payloadLen := 1 + strs.length + (strs.map List.length).sum
    if payloadLen > MAX_PAYLOAD_SIZE then none
    else some (MSG_DEVICE_CONFIG :: payloadLen :: strs.length :: configBody strs)

/-- `DecodeMessage` checks the buffer is at least 2 bytes, reads the type and
length bytes, checks the declared length against the remaining bytes and
against `MAX_PAYLOAD_SIZE`, and returns the type and the payload slice. -/
def DecodeMessage (data : List Nat) : Except DecodeError (Nat × List Nat) :=
  match data with
  | msgType :: length :: rest =>
    if length > rest.length then Except.error DecodeError.lengthMismatch
    else if length > MAX_PAYLOAD_SIZE then Except.error DecodeError.payloadTooLarge
    else Except.ok (msgType, rest.take length)
  | _ => Except.error DecodeError.tooShort

/-- Modelled from the spec: the device-side current-weather decoder is not in
this repository (only the encoder is); the spec says the decoder "subtracts
50" from the single payload byte. -/
def DecodeCurrentWeather (b : Nat) : Int := (b : Int) - 50

end Messaging

namespace Devices

/-! ## Device registry (devices package)

The Go `map[string]*Device` is embedded as an association list with unique
keys; `time.Now()` is an explicit `now : Nat` argument. Mutation through a
pointer becomes replacing the entry at the same key. -/

structure Device where
  ID : String
  Name : String
  Zipcode : String
  LastSeen : Nat
  Active : Bool
deriving DecidableEq, Repr

abbrev Registry : Type := List (String × Device)

/-- Go map lookup `manager.devices[deviceID]`. -/
def findDevice (r : Registry) (deviceID : String) : Option Device :=
  match r with
  | [] => none
  | (k, d) :: rest => if k = deviceID then some d else findDevice rest deviceID

/-- Replace the entry stored under `deviceID` (mutation through the map's
pointer in Go). -/
def updateDevice (r : Registry) (deviceID : String) (d : Device) : Registry :=
  match r with
  | [] => []
  | (k, d0) :: rest =>
    if k = deviceID then (k, d) :: rest
    else (k, d0) :: updateDevice rest deviceID d

/-- `RegisterDevice` (bootup): an existing device keeps its stored zipcode and
takes the new name; it is marked active with `LastSeen` refreshed. A new
device is created from the payload's name and zipcode, active. -/
def RegisterDevice (r : Registry) (deviceID deviceName zipcode : String)
    (now : Nat) : Registry :=
  match findDevice r deviceID with
  | some stored =>
    updateDevice r deviceID
      { ID := stored.ID, Name := deviceName, Zipcode := stored.Zipcode,
        LastSeen := now, Active := true }
  | none =>
    r ++ [(deviceID,
      { ID := deviceID, Name := deviceName, Zipcode := zipcode,
        LastSeen := now, Active := true })]

/-- `SetInactive` (LWT/offline): clears `Active` on a known device, otherwise
does nothing. -/
def SetInactive (r : Registry) (deviceID : String) : Registry :=
  match findDevice r deviceID with
  | some d => updateDevice r deviceID { d with Active := false }
  | none => r

/-- `Heartbeat`: refreshes `LastSeen` on a known device, reactivating it if it
was inactive; unknown ids are ignored. -/
def Heartbeat (r : Registry) (deviceID : String) (now : Nat) : Registry :=
  match findDevice r deviceID with
  | some d =>
    let d1 := { d with LastSeen := now }
    let d2 := if d1.Active then d1 else { d1 with Active := true }
    updateDevice r deviceID d2
  | none => r

end Devices

namespace Etchsketch

/-! ## Shared 16x16 canvas (etchsketch package)

The Go `[16]uint16` row-bitmask arrays are embedded as `List Nat` of length
16 (each entry < 2^16); the `uint16` sequence counter is a `Nat` reduced
modulo 2^16 where the Go code can wrap. -/

structure PixelUpdate where
  Row : Nat
  Col : Nat
  Color : Nat
deriving DecidableEq, Repr

structure Canvas where
  red : List Nat
  green : List Nat
  blue : List Nat
  sequence : Nat
deriving DecidableEq, Repr

/-- A canvas whose three channel arrays have the Go `[16]uint16` shape. -/
def CanvasWF (c : Canvas) : Prop :=
  c.red.length = 16 ∧ c.green.length = 16 ∧ c.blue.length = 16

instance (c : Canvas) : Decidable (CanvasWF c) := by
  unfold CanvasWF; infer_instance

def NewCanvas : Canvas :=
  { red := List.replicate 16 0, green := List.replicate 16 0,
    blue := List.replicate 16 0, sequence := 0 }

/-- Read row-bitmask `i` of a channel. -/
def getRow (rows : List Nat) (i : Nat) : Nat := rows.getD i 0

/-- `rows[i] |= mask` (no-op past the end; a `CanvasWF` canvas has all 16
rows, so in-range rows are always present). -/
def orRow (rows : List Nat) (i mask : Nat) : List Nat :=
  rows.set i (getRow rows i ||| mask)

/-- One iteration of the `ApplyUpdates` loop body: out-of-range coordinates
are skipped, otherwise bit `Col` of row `Row` of the channel selected by
`Color` is set (an unrecognized color selects no channel). -/
def applyUpdate (c : Canvas) (u : PixelUpdate) : Canvas :=
  if u.Row > 15 ∨ u.Col > 15 then c
  else
    let bitMask := 2 ^ u.Col
    match u.Color with
    | 0 => { c with red := orRow c.red u.Row bitMask }
    | 1 => { c with green := orRow c.green u.Row bitMask }
    | 2 => { c with blue := orRow c.blue u.Row bitMask }
    | _ => c

/-- `ApplyUpdates` applies the whole batch, then increments the `uint16`
sequence counter once and returns the updated canvas with the new sequence. -/
def ApplyUpdates (c : Canvas) (updates : List PixelUpdate) : Canvas × Nat :=
  let c1 := updates.foldl applyUpdate c
  let newSeq := (c1.sequence + 1) % 65536
  ({ c1 with sequence := newSeq }, newSeq)

/-- `GetState` returns a copy of the three channels and the sequence. -/
def GetState (c : Canvas) : List Nat × List Nat × List Nat × Nat :=
  (c.red, c.green, c.blue, c.sequence)

/-- `SetState` unconditionally replaces the whole canvas state and sequence. -/
def SetState (_c : Canvas) (seq : Nat) (red green blue : List Nat) : Canvas :=
  { red := red, green := green, blue := blue, sequence := seq }

/-- The pixel bytes of an updates message: packed `[row<<4 | col]` (Go
`(Row & 0x0F) << 4 | (Col & 0x0F)`) followed by the color byte. -/
def pixelBytes : List PixelUpdate → List Nat
  | [] => []
  | u :: rest => ((u.Row % 16) * 16 + u.Col % 16) :: (u.Color % 256) :: pixelBytes rest

/-- `EncodeUpdates` truncates the batch to 32 pixels and builds
`[0x22][length][seq:2 big-endian][count][pixels...]`. -/
def EncodeUpdates (seq : Nat) (updates : List PixelUpdate) : List Nat :=
  let upd := if updates.length > 32 then updates.take 32 else updates
  0x22 :: ((3 + upd.length * 2) % 256) :: (seq / 256 % 256) :: (seq % 256) ::
    (upd.length % 256) :: pixelBytes upd

/-- Decode `count` packed pixels: row from the upper nibble, col from the
lower nibble, then the color byte. -/
def decodePixels (bytes : List Nat) : Nat → List PixelUpdate
  | 0 => []
  | n + 1 =>
    match bytes with
    | rc :: color :: rest =>
      { Row := rc / 16 % 16, Col := rc % 16, Color := color } ::
        decodePixels rest n
    | _ => []

/-- `DecodeUpdates` parses `[seq:2 big-endian][count][pixels...]` from a raw
payload, failing (`none`, Go `ErrInvalidPayload`) when the payload is shorter
than 3 bytes or than the pixel count requires. -/
def DecodeUpdates (payload : List Nat) : Option (Nat × List PixelUpdate) :=
  match payload with
  | b0 :: b1 :: count :: rest =>
    if rest.length < count * 2 then none
    else some (b0 * 256 + b1, decodePixels rest count)
  | _ => none

end Etchsketch

namespace Messaging

/-! ## Frame-protocol theorems -/

theorem forecastBody_length (days : List ForecastDay) :
    (forecastBody days).length = days.length * 3 := by
  induction days with
  | nil => rfl
  | cons d rest ih => simp [forecastBody, ih]; ring

theorem configBody_length (strs : List (List Nat)) :
    (configBody strs).length = strs.length + (strs.map List.length).sum := by
  induction strs with
  | nil => rfl
  | cons s rest ih => simp [configBody, ih]; ring

/-- C1: decoding the bytes produced by any of the frame encoders returns
exactly the type and payload the encoder emitted: the generic encoder
round-trips any payload of at most 255 bytes, and the current-weather,
version, forecast and device-config encoders, which emit the same
`[type][length][payload]` layout, round-trip as well. -/
theorem decode_encode_header_roundtrip
    (payload : List Nat) (hp : payload.length ≤ 255)
    (temp : Int) (version : Nat) (hv : version ≤ 255)
    (days : List ForecastDay) (hd : days.length ≤ 84)
    (strs : List (List Nat)) (msg : List Nat)
    (hc : EncodeDeviceConfig strs = some msg) :
    DecodeMessage (EncodeGeneric payload) = Except.ok (MSG_GENERIC, payload)
  ∧ DecodeMessage (EncodeCurrentWeather temp)
      = Except.ok (MSG_CURRENT_WEATHER, [((temp + 50) % 256).toNat])
  ∧ DecodeMessage (EncodeVersion version)
      = Except.ok (MSG_VERSION, [version])
  ∧ DecodeMessage (EncodeForecast days)
      = Except.ok (MSG_FORECAST_WEATHER, days.length :: forecastBody days)
  ∧ DecodeMessage msg = Except.ok (MSG_DEVICE_CONFIG, msg.drop 2) := by
  have h1 : payload.length % 256 = payload.length := Nat.mod_eq_of_lt (by omega)
  refine ⟨?_, ?_, ?_, ?_, ?_⟩
  · simp [EncodeGeneric, DecodeMessage, MSG_GENERIC, MAX_PAYLOAD_SIZE, h1, hp,
      List.take_length]
  · simp [EncodeCurrentWeather, DecodeMessage, MSG_CURRENT_WEATHER,
      MAX_PAYLOAD_SIZE]
  · simp [EncodeVersion, DecodeMessage, MSG_VERSION, MAX_PAYLOAD_SIZE,
      Nat.mod_eq_of_lt (show version < 256 by omega)]
  · have hlen : (forecastBody days).length = days.length * 3 :=
      forecastBody_length days
    have h2 : (1 + days.length * 3) % 256 = 1 + days.length * 3 :=
      Nat.mod_eq_of_lt (by omega)
    have h3 : days.length % 256 = days.length := Nat.mod_eq_of_lt (by omega)
    simp only [EncodeForecast, DecodeMessage, MAX_PAYLOAD_SIZE, h2, h3]
    have hr : (1 : Nat) + days.length * 3
        = (days.length :: forecastBody days).length := by
      simp [hlen]; omega
    rw [hr, List.take_length]
    simp [MSG_FORECAST_WEATHER]
    omega
  · unfold EncodeDeviceConfig at hc
    split at hc
    · exact absurd hc (by simp)
    · split at hc
      · exact absurd hc (by simp)
      · dsimp only at hc
        split at hc
        · exact absurd hc (by simp)
        · rename_i hcount hany hlen
          have hmsg := (Option.some.injEq _ _).mp hc
          subst hmsg
          have hbody : (configBody strs).length
              = strs.length + (strs.map List.length).sum :=
            configBody_length strs
          simp only [DecodeMessage, MAX_PAYLOAD_SIZE]
          have hr : (1 : Nat) + strs.length + (strs.map List.length).sum
              = (strs.length :: configBody strs).length := by
            simp [hbody]; omega
          rw [hr, List.take_length]
          simp only [MAX_PAYLOAD_SIZE] at hlen
          simp [MSG_DEVICE_CONFIG]
          omega

/-- C1 witness: a concrete two-byte payload round-trips through the generic
encoder and the frame decoder. -/
theorem decode_encode_header_roundtrip_witness :
    DecodeMessage (EncodeGeneric [7, 8]) = Except.ok (MSG_GENERIC, [7, 8]) := by
  have h := decode_encode_header_roundtrip [7, 8] (by decide) 20 1 (by decide)
    [⟨70, 10, 3⟩] (by decide) [] [3, 1, 0] (by decide)
  exact h.1

/-- C2: on byte buffers, `DecodeMessage` fails with the too-short error
exactly when the buffer has fewer than 2 bytes, fails with the
length-mismatch error exactly when the declared length byte exceeds the
bytes remaining after the 2-byte header, fails with the payload-too-large
error when the declared length exceeds 255 (which a byte never does), and
otherwise succeeds with the type byte and a payload of exactly the declared
length. -/
theorem decodeMessage_cases (data : List Nat) (hbytes : ∀ b ∈ data, b < 256) :
    (DecodeMessage data = Except.error DecodeError.tooShort ↔ data.length < 2)
  ∧ (DecodeMessage data = Except.error DecodeError.lengthMismatch ↔
      ∃ t l rest, data = t :: l :: rest ∧ rest.length < l)
  ∧ (∀ t l rest, data = t :: l :: rest → 255 < l →
      DecodeMessage data = Except.error DecodeError.payloadTooLarge)
  ∧ (∀ t l rest, data = t :: l :: rest → l ≤ rest.length →
      DecodeMessage data = Except.ok (t, rest.take l)
        ∧ (rest.take l).length = l) := by
  match data with
  | [] => simp [DecodeMessage]
  | [t] => simp [DecodeMessage]
  | t :: l :: rest =>
    have hl : l < 256 := hbytes l (by simp)
    have hmax : ¬ l > MAX_PAYLOAD_SIZE := by simp [MAX_PAYLOAD_SIZE]; omega
    refine ⟨?_, ?_, ?_, ?_⟩
    · simp only [DecodeMessage]
      split <;> simp
    · simp only [DecodeMessage]
      split
      · rename_i hgt
        constructor
        · intro _; exact ⟨t, l, rest, rfl, hgt⟩
        · intro _; rfl
      · rename_i hng
        constructor
        · intro h; exact absurd h (by simp)
        · rintro ⟨t', l', rest', heq, hlt⟩
          cases heq
          omega
    · rintro t' l' rest' heq hbig
      cases heq
      omega
    · rintro t' l' rest' heq hle
      cases heq
      refine ⟨?_, List.length_take_of_le hle⟩
      simp only [DecodeMessage]
      rw [if_neg (by omega), if_neg hmax]

/-- C2 witness: a concrete well-formed buffer decodes to its type byte and
declared-length payload. -/
theorem decodeMessage_cases_witness :
    DecodeMessage [7, 2, 9, 9, 4] = Except.ok (7, [9, 9]) := by
  have h := decodeMessage_cases [7, 2, 9, 9, 4] (by decide)
  exact (h.2.2.2 7 2 [9, 9, 4] rfl (by decide)).1

/-- C10: on byte buffers (every entry below 256), `DecodeMessage` can never
return the payload-too-large error: the declared length is read from a
single byte, so the `length > 255` branch is unreachable. -/
theorem decodeMessage_payloadTooLarge_unreachable (data : List Nat)
    (hbytes : ∀ b ∈ data, b < 256) :
    DecodeMessage data ≠ Except.error DecodeError.payloadTooLarge := by
  match data with
  | [] => simp [DecodeMessage]
  | [t] => simp [DecodeMessage]
  | t :: l :: rest =>
    have hl : l < 256 := hbytes l (by simp)
    simp only [DecodeMessage]
    split
    · simp
    · rw [if_neg (by simp [MAX_PAYLOAD_SIZE]; omega)]
      simp

/-- C10 witness: a concrete buffer with a maximal length byte still does not
hit the payload-too-large branch. -/
theorem decodeMessage_payloadTooLarge_unreachable_witness :
    DecodeMessage [0, 255, 3] ≠ Except.error DecodeError.payloadTooLarge :=
  decodeMessage_payloadTooLarge_unreachable [0, 255, 3] (by decide)

/-- C9 counterexample: for temperature -60 °F the payload byte is 246, and
subtracting 50 from that byte yields 196, not -60: the claimed round-trip
fails below -50 °F. -/
theorem encodeCurrentWeather_no_roundtrip_at_minus60 :
    EncodeCurrentWeather (-60) = [1, 1, 246]
  ∧ DecodeCurrentWeather 246 = 196
  ∧ (196 : Int) ≠ -60 := by
  refine ⟨by decide, by decide, by decide⟩

/-- C9 amended: for every `int8` temperature the single payload byte equals
`(temp + 50) mod 256`, and subtracting 50 from that byte recovers the
temperature exactly on the range -50..127 (so sub-zero temperatures down to
-50 °F round-trip through the unsigned byte). -/
theorem encodeCurrentWeather_offset_roundtrip (temp : Int)
    (h1 : -128 ≤ temp) (h2 : temp ≤ 127) :
    EncodeCurrentWeather temp
      = [MSG_CURRENT_WEATHER, 1, ((temp + 50) % 256).toNat]
  ∧ (-50 ≤ temp →
      DecodeCurrentWeather (((temp + 50) % 256).toNat) = temp) := by
  constructor
  · rfl
  · intro h3
    unfold DecodeCurrentWeather
    omega

/-- C9 witness: the sub-zero temperature -10 °F encodes to byte 40 and
decodes back to -10. -/
theorem encodeCurrentWeather_offset_roundtrip_witness :
    DecodeCurrentWeather ((((-10 : Int) + 50) % 256).toNat) = -10 := by
  have h := encodeCurrentWeather_offset_roundtrip (-10) (by decide) (by decide)
  exact h.2 (by decide)

end Messaging

namespace Devices

/-! ## Device-registry theorems -/

theorem findDevice_updateDevice_self (r : Registry) (deviceID : String)
    (d d0 : Device) (h : findDevice r deviceID = some d0) :
    findDevice (updateDevice r deviceID d) deviceID = some d := by
  induction r with
  | nil => simp [findDevice] at h
  | cons p rest ih =>
    obtain ⟨k, d1⟩ := p
    by_cases hk : k = deviceID
    · subst hk
      simp [findDevice, updateDevice]
    · simp only [findDevice, updateDevice, if_neg hk] at h ⊢
      exact ih h

theorem findDevice_updateDevice_ne (r : Registry) (deviceID id2 : String)
    (d : Device) (h : id2 ≠ deviceID) :
    findDevice (updateDevice r deviceID d) id2 = findDevice r id2 := by
  induction r with
  | nil => rfl
  | cons p rest ih =>
    obtain ⟨k, d1⟩ := p
    simp only [updateDevice]
    by_cases hk : k = deviceID
    · rw [if_pos hk]
      subst hk
      simp [findDevice, if_neg (Ne.symm h)]
    · rw [if_neg hk]
      simp only [findDevice]
      by_cases hk2 : k = id2
      · simp [hk2]
      · simp [hk2, ih]

theorem updateDevice_length (r : Registry) (deviceID : String) (d : Device) :
    (updateDevice r deviceID d).length = r.length := by
  induction r with
  | nil => rfl
  | cons p rest ih =>
    obtain ⟨k, d1⟩ := p
    simp only [updateDevice]
    split <;> simp [ih]

theorem findDevice_append_single (r : Registry) (deviceID : String) (d : Device)
    (h : findDevice r deviceID = none) :
    findDevice (r ++ [(deviceID, d)]) deviceID = some d := by
  induction r with
  | nil => simp [findDevice]
  | cons p rest ih =>
    obtain ⟨k, d1⟩ := p
    by_cases hk : k = deviceID
    · subst hk
      simp [findDevice] at h
    · simp only [findDevice, if_neg hk] at h
      simp only [List.cons_append, findDevice, if_neg hk]
      exact ih h

/-- C3: a bootup for an unknown device id creates an active device carrying
the routing key (zipcode) from the payload; a second bootup for the same id
with a different key marks the device active, refreshes `LastSeen` and takes
the new name, but keeps the originally stored key — the second payload's key
is ignored. -/
theorem registerDevice_sticky_zipcode (r : Registry) (D Z1 Z2 n1 n2 : String)
    (t1 t2 : Nat) (hnew : findDevice r D = none) (hne : Z1 ≠ Z2) :
    findDevice (RegisterDevice r D n1 Z1 t1) D
      = some ⟨D, n1, Z1, t1, true⟩
  ∧ findDevice (RegisterDevice (RegisterDevice r D n1 Z1 t1) D n2 Z2 t2) D
      = some ⟨D, n2, Z1, t2, true⟩ := by
  have h1 : findDevice (RegisterDevice r D n1 Z1 t1) D
      = some ⟨D, n1, Z1, t1, true⟩ := by
    unfold RegisterDevice
    rw [hnew]
    exact findDevice_append_single r D _ hnew
  refine ⟨h1, ?_⟩
  generalize hq : RegisterDevice r D n1 Z1 t1 = r1 at h1 ⊢
  unfold RegisterDevice
  rw [h1]
  exact findDevice_updateDevice_self _ D _ _ h1

/-- C3 witness: concrete first and second bootups for device `D1`; the stored
routing key stays `78757` while name, `LastSeen` and `Active` follow the
second bootup. -/
theorem registerDevice_sticky_zipcode_witness :
    findDevice
        (RegisterDevice (RegisterDevice [] "D1" "n1" "78757" 1)
          "D1" "n2" "11111" 2) "D1"
      = some ⟨"D1", "n2", "78757", 2, true⟩ := by
  have h := registerDevice_sticky_zipcode [] "D1" "78757" "11111" "n1" "n2"
    1 2 rfl (by decide)
  exact h.2

/-- C6: a heartbeat for an unknown id leaves the registry exactly as it was
(in particular its size is unchanged and no device is created); a heartbeat
for a known device refreshes `LastSeen` and forces `Active := true`
(reactivating an inactive device), keeping id, name and zipcode; and after a
heartbeat every device that was active is still active — a heartbeat never
makes a device inactive. -/
theorem heartbeat_spec (r : Registry) (deviceID : String) (now : Nat) :
    (findDevice r deviceID = none → Heartbeat r deviceID now = r)
  ∧ (∀ d, findDevice r deviceID = some d →
      findDevice (Heartbeat r deviceID now) deviceID
        = some ⟨d.ID, d.Name, d.Zipcode, now, true⟩)
  ∧ (∀ id2 d2, findDevice r id2 = some d2 → d2.Active = true →
      ∃ d3, findDevice (Heartbeat r deviceID now) id2 = some d3
        ∧ d3.Active = true) := by
  refine ⟨?_, ?_, ?_⟩
  · intro h
    unfold Heartbeat
    rw [h]
  · intro d h
    unfold Heartbeat
    rw [h]
    have : (if d.Active then { d with LastSeen := now }
        else { { d with LastSeen := now } with Active := true })
        = (⟨d.ID, d.Name, d.Zipcode, now, true⟩ : Device) := by
      cases hA : d.Active <;> simp [hA]
    simp only [this]
    exact findDevice_updateDevice_self r deviceID _ _ h
  · intro id2 d2 h2 hact
    by_cases hid : id2 = deviceID
    · subst hid
      unfold Heartbeat
      rw [h2]
      refine ⟨⟨d2.ID, d2.Name, d2.Zipcode, now, true⟩, ?_, rfl⟩
      have : (if d2.Active then { d2 with LastSeen := now }
          else { { d2 with LastSeen := now } with Active := true })
          = (⟨d2.ID, d2.Name, d2.Zipcode, now, true⟩ : Device) := by
        cases hA : d2.Active <;> simp [hA]
      simp only [this]
      exact findDevice_updateDevice_self r id2 _ _ h2
    · refine ⟨d2, ?_, hact⟩
      unfold Heartbeat
      cases hF : findDevice r deviceID with
      | none => exact h2
      | some d =>
        rw [findDevice_updateDevice_ne r deviceID id2 _ hid]
        exact h2

/-- C6 witness: a heartbeat for an unknown id on a concrete one-device
registry is a no-op. -/
theorem heartbeat_spec_witness :
    Heartbeat [("D1", ⟨"D1", "n", "z", 1, false⟩)] "D2" 7
      = [("D1", ⟨"D1", "n", "z", 1, false⟩)] := by
  have h := heartbeat_spec [("D1", ⟨"D1", "n", "z", 1, false⟩)] "D2" 7
  exact h.1 (by simp [findDevice])

/-- C7: the offline event for an unknown id leaves the registry unchanged;
for a known device it only clears `Active`, keeping id, name, zipcode and
`LastSeen` of that device, leaving every other id's lookup unchanged, and
never deleting an entry (the registry size is preserved). -/
theorem setInactive_spec (r : Registry) (deviceID : String) :
    (findDevice r deviceID = none → SetInactive r deviceID = r)
  ∧ (∀ d, findDevice r deviceID = some d →
      findDevice (SetInactive r deviceID) deviceID
        = some ⟨d.ID, d.Name, d.Zipcode, d.LastSeen, false⟩)
  ∧ (∀ id2, id2 ≠ deviceID →
      findDevice (SetInactive r deviceID) id2 = findDevice r id2)
  ∧ (SetInactive r deviceID).length = r.length := by
  refine ⟨?_, ?_, ?_, ?_⟩
  · intro h
    unfold SetInactive
    rw [h]
  · intro d h
    unfold SetInactive
    rw [h]
    exact findDevice_updateDevice_self r deviceID _ _ h
  · intro id2 hid
    unfold SetInactive
    cases hF : findDevice r deviceID with
    | none => rfl
    | some d => exact findDevice_updateDevice_ne r deviceID id2 _ hid
  · unfold SetInactive
    cases hF : findDevice r deviceID with
    | none => rfl
    | some d => exact updateDevice_length r deviceID _

/-- C7 witness: the offline event on a concrete registry flips only the
`Active` flag of the addressed device and keeps the registry size. -/
theorem setInactive_spec_witness :
    findDevice (SetInactive [("D1", ⟨"D1", "n", "z", 4, true⟩)] "D1") "D1"
      = some ⟨"D1", "n", "z", 4, false⟩ := by
  have h := setInactive_spec [("D1", ⟨"D1", "n", "z", 4, true⟩)] "D1"
  exact h.2.1 ⟨"D1", "n", "z", 4, true⟩ (by simp [findDevice])

end Devices

namespace Etchsketch

/-! ## Canvas theorems -/

theorem orRow_of_length_le (rows : List Nat) (i mask : Nat)
    (h : rows.length ≤ i) : orRow rows i mask = rows :=
  List.set_eq_of_length_le h

theorem getRow_orRow_self (rows : List Nat) (i mask : Nat)
    (h : i < rows.length) :
    getRow (orRow rows i mask) i = getRow rows i ||| mask := by
  unfold orRow getRow
  simp [List.getD_eq_getElem?_getD, List.getElem?_set_self h]

theorem getRow_orRow_ne (rows : List Nat) (i mask i2 : Nat) (h : i ≠ i2) :
    getRow (orRow rows i mask) i2 = getRow rows i2 := by
  unfold orRow getRow
  simp [List.getD_eq_getElem?_getD, List.getElem?_set_ne h]

theorem testBit_getRow_orRow_mono (rows : List Nat) (i mask i2 j : Nat)
    (h : Nat.testBit (getRow rows i2) j = true) :
    Nat.testBit (getRow (orRow rows i mask) i2) j = true := by
  by_cases he : i = i2
  · subst he
    by_cases hlt : i < rows.length
    · rw [getRow_orRow_self rows i mask hlt, Nat.testBit_or, h]
      simp
    · rw [orRow_of_length_le rows i mask (by omega)]
      exact h
  · rw [getRow_orRow_ne rows i mask i2 he]
    exact h

/-- Bit-containment between two canvases: every set pixel bit of `c` is also
set in `c2`. -/
def bitLe (c c2 : Canvas) : Prop :=
  ∀ i j,
    (Nat.testBit (getRow c.red i) j = true →
      Nat.testBit (getRow c2.red i) j = true)
  ∧ (Nat.testBit (getRow c.green i) j = true →
      Nat.testBit (getRow c2.green i) j = true)
  ∧ (Nat.testBit (getRow c.blue i) j = true →
      Nat.testBit (getRow c2.blue i) j = true)

theorem bitLe_refl (c : Canvas) : bitLe c c :=
  fun _ _ => ⟨id, id, id⟩

theorem bitLe_trans {a b c : Canvas} (h1 : bitLe a b) (h2 : bitLe b c) :
    bitLe a c := by
  intro i j
  obtain ⟨r1, g1, b1⟩ := h1 i j
  obtain ⟨r2, g2, b2⟩ := h2 i j
  exact ⟨fun h => r2 (r1 h), fun h => g2 (g1 h), fun h => b2 (b1 h)⟩

theorem applyUpdate_bitLe (c : Canvas) (u : PixelUpdate) :
    bitLe c (applyUpdate c u) := by
  unfold applyUpdate
  split
  · exact bitLe_refl c
  · split
    · intro i j
      exact ⟨testBit_getRow_orRow_mono _ _ _ _ _, id, id⟩
    · intro i j
      exact ⟨id, testBit_getRow_orRow_mono _ _ _ _ _, id⟩
    · intro i j
      exact ⟨id, id, testBit_getRow_orRow_mono _ _ _ _ _⟩
    · exact bitLe_refl c

theorem foldl_applyUpdate_bitLe (updates : List PixelUpdate) (c : Canvas) :
    bitLe c (updates.foldl applyUpdate c) := by
  induction updates generalizing c with
  | nil => exact bitLe_refl c
  | cons u rest ih =>
    rw [List.foldl_cons]
    exact bitLe_trans (applyUpdate_bitLe c u) (ih (applyUpdate c u))

theorem applyUpdate_sequence (c : Canvas) (u : PixelUpdate) :
    (applyUpdate c u).sequence = c.sequence := by
  unfold applyUpdate
  split
  · rfl
  · split <;> rfl

theorem foldl_applyUpdate_sequence (updates : List PixelUpdate) (c : Canvas) :
    (updates.foldl applyUpdate c).sequence = c.sequence := by
  induction updates generalizing c with
  | nil => rfl
  | cons u rest ih =>
    rw [List.foldl_cons, ih, applyUpdate_sequence]

theorem applyUpdate_wf (c : Canvas) (u : PixelUpdate) (h : CanvasWF c) :
    CanvasWF (applyUpdate c u) := by
  obtain ⟨hr, hg, hb⟩ := h
  unfold applyUpdate
  split
  · exact ⟨hr, hg, hb⟩
  · split <;> simp [CanvasWF, orRow, hr, hg, hb]

theorem foldl_applyUpdate_wf (updates : List PixelUpdate) (c : Canvas)
    (h : CanvasWF c) : CanvasWF (updates.foldl applyUpdate c) := by
  induction updates generalizing c with
  | nil => exact h
  | cons u rest ih =>
    rw [List.foldl_cons]
    exact ih _ (applyUpdate_wf c u h)

theorem applyUpdate_skip (c : Canvas) (u : PixelUpdate)
    (h : u.Row > 15 ∨ u.Col > 15) : applyUpdate c u = c := by
  unfold applyUpdate
  rw [if_pos h]

theorem applyUpdate_sets_red (c : Canvas) (u : PixelUpdate) (hwf : CanvasWF c)
    (hrow : u.Row ≤ 15) (hcol : u.Col ≤ 15) (hc : u.Color = 0) :
    Nat.testBit (getRow (applyUpdate c u).red u.Row) u.Col = true := by
  obtain ⟨hlr, hlg, hlb⟩ := hwf
  unfold applyUpdate
  rw [if_neg (by omega), hc]
  simp only
  rw [getRow_orRow_self c.red u.Row _ (by omega)]
  simp [Nat.testBit_or, Nat.testBit_two_pow_self]

theorem applyUpdate_sets_green (c : Canvas) (u : PixelUpdate) (hwf : CanvasWF c)
    (hrow : u.Row ≤ 15) (hcol : u.Col ≤ 15) (hc : u.Color = 1) :
    Nat.testBit (getRow (applyUpdate c u).green u.Row) u.Col = true := by
  obtain ⟨hlr, hlg, hlb⟩ := hwf
  unfold applyUpdate
  rw [if_neg (by omega), hc]
  simp only
  rw [getRow_orRow_self c.green u.Row _ (by omega)]
  simp [Nat.testBit_or, Nat.testBit_two_pow_self]

theorem applyUpdate_sets_blue (c : Canvas) (u : PixelUpdate) (hwf : CanvasWF c)
    (hrow : u.Row ≤ 15) (hcol : u.Col ≤ 15) (hc : u.Color = 2) :
    Nat.testBit (getRow (applyUpdate c u).blue u.Row) u.Col = true := by
  obtain ⟨hlr, hlg, hlb⟩ := hwf
  unfold applyUpdate
  rw [if_neg (by omega), hc]
  simp only
  rw [getRow_orRow_self c.blue u.Row _ (by omega)]
  simp [Nat.testBit_or, Nat.testBit_two_pow_self]

theorem foldl_applyUpdate_filter (updates : List PixelUpdate) (c : Canvas) :
    updates.foldl applyUpdate c
      = (updates.filter fun u => u.Row ≤ 15 && u.Col ≤ 15).foldl
          applyUpdate c := by
  induction updates generalizing c with
  | nil => rfl
  | cons u rest ih =>
    rw [List.foldl_cons]
    by_cases hp : (u.Row ≤ 15 && u.Col ≤ 15) = true
    · simp only [List.filter_cons]
      rw [if_pos hp, List.foldl_cons]
      exact ih (applyUpdate c u)
    · simp only [List.filter_cons]
      rw [if_neg hp, applyUpdate_skip c u (by simp at hp; omega)]
      exact ih c

/-- C4: for every batch — empty or containing out-of-range entries —
`ApplyUpdates` increments the sequence by exactly 1 modulo 2^16 and returns
the new sequence; the empty batch changes nothing else; no pixel bit is ever
cleared; every in-range update sets the addressed channel's bit; and
out-of-range entries are skipped without failing the batch (filtering them
out leaves the result unchanged). -/
theorem applyUpdates_spec (c : Canvas) (updates : List PixelUpdate)
    (hwf : CanvasWF c) :
    (ApplyUpdates c updates).2 = (c.sequence + 1) % 65536
  ∧ ((ApplyUpdates c updates).1).sequence = (c.sequence + 1) % 65536
  ∧ (ApplyUpdates c []).1 = { c with sequence := (c.sequence + 1) % 65536 }
  ∧ bitLe c (ApplyUpdates c updates).1
  ∧ (∀ u ∈ updates, u.Row ≤ 15 → u.Col ≤ 15 →
        (u.Color = 0 → Nat.testBit
          (getRow (ApplyUpdates c updates).1.red u.Row) u.Col = true)
      ∧ (u.Color = 1 → Nat.testBit
          (getRow (ApplyUpdates c updates).1.green u.Row) u.Col = true)
      ∧ (u.Color = 2 → Nat.testBit
          (getRow (ApplyUpdates c updates).1.blue u.Row) u.Col = true))
  ∧ ApplyUpdates c updates
      = ApplyUpdates c (updates.filter fun u => u.Row ≤ 15 && u.Col ≤ 15) := by
  refine ⟨?_, ?_, rfl, ?_, ?_, ?_⟩
  · show ((updates.foldl applyUpdate c).sequence + 1) % 65536 = _
    rw [foldl_applyUpdate_sequence]
  · show ((updates.foldl applyUpdate c).sequence + 1) % 65536 = _
    rw [foldl_applyUpdate_sequence]
  · exact foldl_applyUpdate_bitLe updates c
  · intro u hu hrow hcol
    obtain ⟨l1, l2, rfl⟩ := List.append_of_mem hu
    have hwf1 : CanvasWF (l1.foldl applyUpdate c) :=
      foldl_applyUpdate_wf l1 c hwf
    have hmono :=
      foldl_applyUpdate_bitLe l2 (applyUpdate (l1.foldl applyUpdate c) u)
    have efold : (ApplyUpdates c (l1 ++ u :: l2)).1.red
          = (l2.foldl applyUpdate (applyUpdate (l1.foldl applyUpdate c) u)).red
        ∧ (ApplyUpdates c (l1 ++ u :: l2)).1.green
          = (l2.foldl applyUpdate (applyUpdate (l1.foldl applyUpdate c) u)).green
        ∧ (ApplyUpdates c (l1 ++ u :: l2)).1.blue
          = (l2.foldl applyUpdate (applyUpdate (l1.foldl applyUpdate c) u)).blue := by
      refine ⟨?_, ?_, ?_⟩
      · show ((l1 ++ u :: l2).foldl applyUpdate c).red = _
        rw [List.foldl_append, List.foldl_cons]
      · show ((l1 ++ u :: l2).foldl applyUpdate c).green = _
        rw [List.foldl_append, List.foldl_cons]
      · show ((l1 ++ u :: l2).foldl applyUpdate c).blue = _
        rw [List.foldl_append, List.foldl_cons]
    refine ⟨fun hc0 => ?_, fun hc1 => ?_, fun hc2 => ?_⟩
    · rw [efold.1]
      exact (hmono u.Row u.Col).1
        (applyUpdate_sets_red _ u hwf1 hrow hcol hc0)
    · rw [efold.2.1]
      exact (hmono u.Row u.Col).2.1
        (applyUpdate_sets_green _ u hwf1 hrow hcol hc1)
    · rw [efold.2.2]
      exact (hmono u.Row u.Col).2.2
        (applyUpdate_sets_blue _ u hwf1 hrow hcol hc2)
  · unfold ApplyUpdates
    rw [foldl_applyUpdate_filter]

/-- C4 witness: a concrete batch with one in-range and one out-of-range entry
still bumps the sequence of a fresh canvas to exactly 1. -/
theorem applyUpdates_spec_witness :
    (ApplyUpdates NewCanvas [⟨2, 3, 0⟩, ⟨20, 1, 1⟩]).2 = 1 := by
  have h := applyUpdates_spec NewCanvas [⟨2, 3, 0⟩, ⟨20, 1, 1⟩] (by decide)
  exact h.1.trans rfl

/-- C5: replacing the full frame with `SetState` and then snapshotting with
`GetState` returns exactly the injected channel arrays and sequence number,
unconditionally — in particular also when the injected sequence is lower
than the canvas's previous sequence (no monotonicity check). -/
theorem setState_getState (c : Canvas) (seq : Nat)
    (red green blue : List Nat) :
    GetState (SetState c seq red green blue) = (red, green, blue, seq) := rfl

theorem pixelBytes_length (updates : List PixelUpdate) :
    (pixelBytes updates).length = updates.length * 2 := by
  induction updates with
  | nil => rfl
  | cons u rest ih => simp [pixelBytes, ih]; ring

theorem decodePixels_pixelBytes (updates : List PixelUpdate)
    (hb : ∀ u ∈ updates, u.Row ≤ 15 ∧ u.Col ≤ 15 ∧ u.Color ≤ 255) :
    decodePixels (pixelBytes updates) updates.length = updates := by
  induction updates with
  | nil => rfl
  | cons u rest ih =>
    obtain ⟨h1, h2, h3⟩ := hb u (by simp)
    simp only [pixelBytes, List.length_cons, decodePixels]
    rw [ih (fun v hv => hb v (by simp [hv]))]
    simp only [List.cons.injEq, and_true]
    cases u with
    | mk R C K =>
      simp only at h1 h2 h3
      simp only [PixelUpdate.mk.injEq]
      refine ⟨by omega, by omega, Nat.mod_eq_of_lt (by omega)⟩

/-- C8: `EncodeUpdates` emits at most 32 pixels, silently truncating any
beyond the 32nd, laying out `[type][length][seq:2 big-endian][count]` and two
bytes per pixel; and for every batch of at most 32 in-range pixels,
`DecodeUpdates` applied to the encoded message's payload returns exactly the
original sequence and updates. -/
theorem encodeUpdates_decodeUpdates_roundtrip (seq : Nat) (hseq : seq < 65536)
    (updates : List PixelUpdate)
    (hb : ∀ u ∈ updates, u.Row ≤ 15 ∧ u.Col ≤ 15 ∧ u.Color ≤ 255) :
    (EncodeUpdates seq updates).length = 2 + (3 + 2 * min updates.length 32)
  ∧ EncodeUpdates seq updates = EncodeUpdates seq (updates.take 32)
  ∧ (updates.length ≤ 32 →
      DecodeUpdates ((EncodeUpdates seq updates).drop 2)
        = some (seq, updates)) := by
  refine ⟨?_, ?_, ?_⟩
  · unfold EncodeUpdates
    dsimp only
    split
    · simp [pixelBytes_length, List.length_take]
      omega
    · simp [pixelBytes_length]
      omega
  · unfold EncodeUpdates
    dsimp only
    by_cases hgt : updates.length > 32
    · rw [if_pos hgt, if_neg (by simp [List.length_take])]
    · rw [if_neg hgt, if_neg (by simp [List.length_take]),
        List.take_of_length_le (by omega)]
  · intro hle
    have hdrop : (EncodeUpdates seq updates).drop 2
        = (seq / 256 % 256) :: (seq % 256) ::
            (updates.length % 256) :: pixelBytes updates := by
      unfold EncodeUpdates
      dsimp only
      rw [if_neg (by omega)]
      rfl
    have hcnt : updates.length % 256 = updates.length :=
      Nat.mod_eq_of_lt (by omega)
    rw [hdrop, hcnt]
    simp only [DecodeUpdates]
    rw [if_neg (by rw [pixelBytes_length]; omega)]
    rw [decodePixels_pixelBytes updates hb]
    have hs : seq / 256 % 256 * 256 + seq % 256 = seq := by omega
    rw [hs]

/-- C8 witness: a concrete two-pixel batch round-trips through
`EncodeUpdates`/`DecodeUpdates` with its sequence number 770. -/
theorem encodeUpdates_decodeUpdates_roundtrip_witness :
    DecodeUpdates ((EncodeUpdates 770 [⟨2, 3, 0⟩, ⟨15, 15, 2⟩]).drop 2)
      = some (770, [⟨2, 3, 0⟩, ⟨15, 15, 2⟩]) := by
  have h := encodeUpdates_decodeUpdates_roundtrip 770 (by decide)
    [⟨2, 3, 0⟩, ⟨15, 15, 2⟩] (by decide)
  exact h.2.2 (by decide)

end Etchsketch
